import Mathlib

/-!
Verification of the curve-ordering and reference-normalization engine of
`graphing_widget.py` (class `MatplotlibWidget`).

Shallow embedding conventions:
* Floating-point sample values are modelled as exact rationals; `nan` (the
  "undefined" marker produced by `np.interp(..., left=np.nan, right=np.nan)`)
  is modelled as `none` in `Val := Option ℚ`, with nan-propagating arithmetic.
* `np.log` is transcendental, so it is abstracted as a parameter
  `logf : ℚ → ℚ`; every theorem that depends on its behaviour assumes
  `StrictMono logf`, the only property of `log` the code relies on
  (frequencies are positive and `log` is strictly increasing there).
* `ax.get_lines()` (matplotlib's line list, in insertion order) and
  `self._qlistwidget_indexes_of_lines` (a parallel integer array: entry `k`
  is the display position of line `k`) are mutated at the same slot by every
  operation of the widget, so they are modelled as a single list of pairs
  (`Slot`), kept in graph (insertion) order.
* Python exceptions escaping an operation are modelled as a `PyOutcome`
  paired with the state at the moment the exception is raised (Python
  mutates in place, so partial mutation before an exception is observable).
-/

/-- A sample value: `some q` is an ordinary float, `none` is `nan`. -/
abbrev Val := Option ℚ

/-- Subtraction with nan propagation (`y - ref_y_intp` in numpy). -/
def subV : Val → Val → Val
  | some a, some b => some (a - b)
  | _, _ => none

/-- Absolute value with nan propagation (`np.abs`). -/
def absV : Val → Val
  | some a => some |a|
  | none => none

/-- Binary maximum with nan propagation (as in `np.max` reductions). -/
def maxV : Val → Val → Val
  | some a, some b => some (max a b)
  | _, _ => none

/-- `np.max` over a 1-d array.  numpy raises on an empty array; that error
case is modelled as `none` and is excluded by hypothesis wherever used. -/
def npMax : List Val → Val
  | [] => none
  | v :: vs => vs.foldl maxV v

/-- One plot line, with the attributes of matplotlib's `Line2D` that the
widget's core logic reads or writes: the label, the `(x, y)` data arrays,
and the ad-hoc `_original_xy` attribute the widget attaches during
reference activation (absent = `none`). -/
structure Line2D where
  label : String
  x : List ℚ
  y : List Val
  original_xy : Option (List ℚ × List Val)
deriving DecidableEq, Repr

/-- One slot of the widget state: a line of `ax.get_lines()` paired with its
entry in the parallel array `_qlistwidget_indexes_of_lines` (its current
display position in the Qt list widget). -/
structure Slot where
  line : Line2D
  qlistIndex : ℤ
deriving DecidableEq, Repr

/-- `self._ref_index_x_y`, when not `None`: the mutable triple
`[i_ref_curve, ref_x, ref_y]`.  `change_lines_order` can overwrite the
position entry with Python `None` (via `dict.get(..., None)`), hence
`idx : Option ℤ`. -/
structure RefIndexXY where
  idx : Option ℤ
  ref_x : List ℚ
  ref_y : List Val
deriving DecidableEq, Repr

/-- The state of `MatplotlibWidget` relevant to the curve-ordering and
reference-normalization engine. -/
structure MatplotlibWidget where
  slots : List Slot
  ref_index_x_y : Option RefIndexXY
  y_limits_policy : Option String
deriving DecidableEq, Repr

/-- How a widget operation terminates: normally, or with the Python
exception that escapes (or is caught and signalled) at that point. -/
inductive PyOutcome where
  | ok
  /-- `RuntimeError` raised by activate/deactivate and caught there
  (signalled via `signal_reference_curve_failed`). -/
  | stateError
  /-- `AttributeError` from reading a missing `_original_xy`; not caught. -/
  | attrError
  /-- `KeyError` from `new_indexes[...]` on a missing key; not caught. -/
  | keyError
  /-- `TypeError` from comparing an `int` with `None`; not caught. -/
  | typeError
  /-- `IndexError` from `np.where(...)[0][0]` on no match; not caught. -/
  | indexError
  /-- `ValueError` from numpy broadcasting or matplotlib's first-dimension
  check on mismatched array lengths; not caught. -/
  | valueError
deriving DecidableEq, Repr

/-- `array[array >= i] += 1` applied to one entry. -/
def shiftIfGe (i p : ℤ) : ℤ := if i ≤ p then p + 1 else p

/-- `array[array > r] -= 1` applied to one entry. -/
def decIfGt (r p : ℤ) : ℤ := if r < p then p - 1 else p

/-- `np.interp(xq, xp, fp, left=np.nan, right=np.nan)` at a single point,
over the zipped sample list `pts = zip xp fp`, scanning for the bracketing
segment.  Matches numpy's `arr_interp`: strictly below the first knot or
strictly above the last knot gives `nan`; an exact knot match returns that
knot's `fp` value directly; otherwise the linear-slope formula on the
bracketing segment.  (numpy raises on an empty `xp`; modelled as `none`,
excluded by hypothesis where relevant.) -/
def npInterpGo (xq : ℚ) : (ℚ × Val) → List (ℚ × Val) → Val
  | (x0, f0), [] => if x0 < xq then none else f0
  | (x0, f0), (x1, f1) :: rest =>
    if xq ≤ x1 then
      if xq = x0 then f0
      else if xq = x1 then f1
      else
        match f0, f1 with
        | some a, some b => some ((b - a) / (x1 - x0) * (xq - x0) + a)
        | _, _ => none
    else npInterpGo xq (x1, f1) rest

/-- Entry point of the single-point interpolation scan. -/
def npInterp (xq : ℚ) : List (ℚ × Val) → Val
  | [] => none
  | p :: rest => if xq < p.1 then none else npInterpGo xq p rest

/-- `MatplotlibWidget._reference_curve_interpolated(x, ref_x, ref_y)`:
`np.interp(np.log(x), np.log(reference_curve_x), reference_curve_y,
left=np.nan, right=np.nan)`.  The `lru_cache` memoization is a pure
optimization of this pure function.  `logf` abstracts `np.log`. -/
def reference_curve_interpolated (logf : ℚ → ℚ) (x : List ℚ)
    (reference_curve_x : List ℚ) (reference_curve_y : List Val) : List Val :=
  x.map fun xi => npInterp (logf xi) ((reference_curve_x.map logf).zip reference_curve_y)

/-- `MatplotlibWidget.get_line_in_qlist_order(qlist_index)`:
`np.where(self._qlistwidget_indexes_of_lines == qlist_index)[0][0]` (first
slot carrying that display position), then that line. -/
def get_line_in_qlist_order (s : MatplotlibWidget) (qlist_index : ℤ) : Option Line2D :=
  (s.slots.find? fun sl => sl.qlistIndex = qlist_index).map (·.line)

/-- The body of the per-line loop of `activate_reference_curve`: store
`_original_xy`, subtract the interpolated reference, and drop every sample
whose new y is `nan` (the `mask = ~np.isnan(new_xy[1])` step). -/
def rebaseLine (logf : ℚ → ℚ) (ref_x : List ℚ) (ref_y : List Val) (l : Line2D) : Line2D :=
  let ref_y_intp := reference_curve_interpolated logf l.x ref_x ref_y
  let new_y := List.zipWith subV l.y ref_y_intp
  let kept := (l.x.zip new_y).filter fun p => p.2.isSome
  { l with
    original_xy := some (l.x, l.y)
    x := kept.map Prod.fst
    y := kept.map Prod.snd }

/-- `MatplotlibWidget.activate_reference_curve(i_ref_curve)`.  Fails (caught
`RuntimeError`, state untouched) if a reference is already active; the
uncaught `IndexError` of an unresolvable position also precedes any
mutation.  Otherwise rebases every line of `ax.get_lines()` against the
reference's pre-loop `(ref_x, ref_y)`, then records
`_ref_index_x_y = [i_ref_curve, ref_x, ref_y]` and switches the y-limits
policy to `"reference_curve"`. -/
def activate_reference_curve (logf : ℚ → ℚ) (i_ref_curve : ℤ)
    (s : MatplotlibWidget) : MatplotlibWidget × PyOutcome :=
  match s.ref_index_x_y with
  | some _ => (s, .stateError)
  | none =>
    match get_line_in_qlist_order s i_ref_curve with
    | none => (s, .indexError)
    | some ref_curve =>
      let ref_x := ref_curve.x
      let ref_y := ref_curve.y
      ({ s with
          slots := s.slots.map fun sl => { sl with line := rebaseLine logf ref_x ref_y sl.line }
          ref_index_x_y := some ⟨some i_ref_curve, ref_x, ref_y⟩
          y_limits_policy := some "reference_curve" }, .ok)

/-- The restoration loop of `deactivate_reference_curve`: each line's
`(x, y)` is set back from `_original_xy`, in graph order, in place.  A line
without `_original_xy` raises `AttributeError` there: the already-processed
prefix stays restored, that line and the rest stay untouched, and the flag
comes back `false`. -/
def restoreSlots : List Slot → List Slot × Bool
  | [] => ([], true)
  | sl :: rest =>
    match sl.line.original_xy with
    | none => (sl :: rest, false)
    | some (ox, oy) =>
      let (rest2, flag) := restoreSlots rest
      ({ sl with line := { sl.line with x := ox, y := oy } } :: rest2, flag)

/-- `MatplotlibWidget.deactivate_reference_curve()`.  Fails (caught
`RuntimeError`, state untouched) if no reference is active.  Otherwise
restores every line from its stored `_original_xy` (which is *not*
deleted), clears `_ref_index_x_y`, and switches the y-limits policy to
`"SPL"`.  A missing `_original_xy` aborts the loop with an uncaught
`AttributeError`, leaving `_ref_index_x_y` and the policy untouched. -/
def deactivate_reference_curve (s : MatplotlibWidget) : MatplotlibWidget × PyOutcome :=
  match s.ref_index_x_y with
  | none => (s, .stateError)
  | some _ =>
    let res := restoreSlots s.slots
    if res.2 then
      ({ s with slots := res.1, ref_index_x_y := none, y_limits_policy := some "SPL" }, .ok)
    else
      ({ s with slots := res.1 }, .attrError)

/-- numpy element-wise subtraction `a - b` of two 1-d arrays with numpy's
broadcasting rule: defined when the lengths agree or either array has
length 1 (which is stretched); any other length combination raises
`ValueError` (modelled as `none`). -/
def npBroadcastSub (a b : List Val) : Option (List Val) :=
  if a.length = b.length then some (List.zipWith subV a b)
  else if a.length = 1 then some (b.map fun v => subV a.headI v)
  else if b.length = 1 then some (a.map fun v => subV v b.headI)
  else none

/-- `MatplotlibWidget.add_line2d(i_insert, label, (x_in, y_in))`.  No input
validation is performed by this code.  With a reference active: the stored
reference position is first bumped when `i_insert <= _ref_index_x_y[0]`
(a `None` position there raises `TypeError` before any mutation), and the
new curve's y data is rebased (`y_in - ref_y_intp`, numpy broadcasting,
which raises `ValueError` on incompatible lengths — with the position bump
already applied) with *no* nan-masking and *no* `_original_xy`.  Then
`ax.semilogx(x_in, y_in)` raises `ValueError` if the two arrays differ in
first dimension (again leaving any position bump behind and inserting
nothing); otherwise the new line is appended to `ax.get_lines()`, the
parallel array entries `>= i_insert` are shifted up, and `i_insert` is
appended. -/
def add_line2d (logf : ℚ → ℚ) (i_insert : ℤ) (label : String)
    (x_in : List ℚ) (y_in : List Val) (s : MatplotlibWidget) :
    MatplotlibWidget × PyOutcome :=
  let insert : MatplotlibWidget → List Val → MatplotlibWidget := fun s1 yNew =>
    { s1 with
        slots := (s1.slots.map fun sl => { sl with qlistIndex := shiftIfGe i_insert sl.qlistIndex })
          ++ [⟨⟨label, x_in, yNew, none⟩, i_insert⟩] }
  match s.ref_index_x_y with
  | none =>
    if x_in.length = y_in.length then (insert s y_in, .ok)
    else (s, .valueError)
  | some r =>
    match r.idx with
    | none => (s, .typeError)
    | some ri =>
      let r2 := if i_insert ≤ ri then { r with idx := some (ri + 1) } else r
      let s1 := { s with ref_index_x_y := some r2 }
      let ref_y_intp := reference_curve_interpolated logf x_in r.ref_x r.ref_y
      match npBroadcastSub y_in ref_y_intp with
      | none => (s1, .valueError)
      | some yNew =>
        if x_in.length = yNew.length then (insert s1 yNew, .ok)
        else (s1, .valueError)

/-- One pass of the removal loop of `remove_multiple_line2d` for display
position `r`: the line at that position is removed from `ax.get_lines()`,
the parallel-array entries equal to `r` are filtered out (under the
bijection invariant there is exactly one, at the same slot as the removed
line), and the entries `> r` are decremented. -/
def removeOne (r : ℤ) (slots : List Slot) : List Slot :=
  (slots.filter fun sl => sl.qlistIndex ≠ r).map
    fun sl => { sl with qlistIndex := decIfGt r sl.qlistIndex }

/-- `sorted(ix, reverse=True)` over integers. -/
def sortDesc (ix : List ℤ) : List ℤ := List.insertionSort (fun a b => b ≤ a) ix

/-- `MatplotlibWidget.remove_multiple_line2d(ix)`.  With a reference
active: if the reference's stored position is among `ix` the reference is
deactivated first (an `AttributeError` there aborts the whole removal with
the partial restoration in place); otherwise the stored position is
decremented by the number of removed positions below it (a `None` position
raises `TypeError` in that comparison, before any mutation).  Then the
positions are removed from highest to lowest. -/
def remove_multiple_line2d (ix : List ℤ) (s : MatplotlibWidget) :
    MatplotlibWidget × PyOutcome :=
  let afterRef : MatplotlibWidget × PyOutcome :=
    match s.ref_index_x_y with
    | none => (s, .ok)
    | some r =>
      match r.idx with
      | none => (s, .typeError)
      | some v =>
        if v ∈ ix then deactivate_reference_curve s
        else
          let r2 := { r with idx := some (v - (ix.countP fun i => decide (i < v))) }
          ({ s with ref_index_x_y := some r2 }, .ok)
  match afterRef with
  | (s1, .ok) =>
    ({ s1 with slots := (sortDesc ix).foldl (fun sls r => removeOne r sls) s1.slots }, .ok)
  | (s1, e) => (s1, e)

/-- The in-place remapping loop of `change_lines_order`: each slot's display
position is replaced by `new_indexes[position]`.  A missing key raises
`KeyError` there: the already-processed prefix stays remapped, the rest
untouched, flag `false`. -/
def remapSlots (new_indexes : List (ℤ × ℤ)) : List Slot → List Slot × Bool
  | [] => ([], true)
  | sl :: rest =>
    match List.lookup sl.qlistIndex new_indexes with
    | none => (sl :: rest, false)
    | some v =>
      let (rest2, flag) := remapSlots new_indexes rest
      ({ sl with qlistIndex := v } :: rest2, flag)

/-- `MatplotlibWidget.change_lines_order(new_indexes)`.  No validation of
the mapping is performed.  After the remapping loop, an active reference's
stored position is looked up with `new_indexes.get(position, None)` and
overwritten when different (possibly with `None`). -/
def change_lines_order (new_indexes : List (ℤ × ℤ)) (s : MatplotlibWidget) :
    MatplotlibWidget × PyOutcome :=
  let res := remapSlots new_indexes s.slots
  if res.2 then
    let s1 := { s with slots := res.1 }
    match s1.ref_index_x_y with
    | none => (s1, .ok)
    | some r =>
      let newLoc : Option ℤ :=
        match r.idx with
        | none => none
        | some v => List.lookup v new_indexes
      if newLoc ≠ r.idx then
        let r2 := { r with idx := newLoc }
        ({ s1 with ref_index_x_y := some r2 }, .ok)
      else (s1, .ok)
  else ({ s with slots := res.1 }, .keyError)

/-- The `"reference_curve"` branch of `update_figure`'s limit computation:
`y_max = np.max([np.max(np.abs(line.get_ydata())) for line in lines])`,
`graph_max = max(5 * np.ceil((y_max - 2) / 5), 1)`,
`set_ylim((-graph_max, graph_max))`.  An empty line list or a nan `y_max`
(where numpy errors or produces nan limits) is modelled as `none`. -/
def reference_curve_y_limits (lines : List Line2D) : Option (ℚ × ℚ) :=
  match npMax (lines.map fun l => npMax (l.y.map absV)) with
  | none => none
  | some y_max =>
    let graph_max : ℚ := max (5 * (⌈(y_max - 2) / 5⌉ : ℤ)) 1
    some (-graph_max, graph_max)

/-- Modelled from the spec: the validation predicate "`x` strictly
increasing" that the spec requires of curve data.  The source performs no
such check; the predicate is used only in claim hypotheses. -/
def strictlyIncreasing (x : List ℚ) : Prop := List.Chain' (· < ·) x

/-- The multiset of stored display positions
(`self._qlistwidget_indexes_of_lines` as an unordered collection). -/
def posMul (s : MatplotlibWidget) : Multiset ℤ := (s.slots.map (·.qlistIndex) : List ℤ)

/-- The multiset `{0, 1, ..., n-1}` of integers. -/
def rangeZ (n : ℕ) : Multiset ℤ := (Multiset.range n).map Nat.cast

/-- The display-position bijection invariant: the stored display positions
are exactly `0, 1, ..., n-1`, each once, where `n` is the live curve
count. -/
def IndexBijection (s : MatplotlibWidget) : Prop := posMul s = rangeZ s.slots.length

/-- One mutation of the curve ordering: the three ordering-relevant widget
operations. -/
inductive GraphOp where
  | add (i_insert : ℤ) (label : String) (x : List ℚ) (y : List Val)
  | remove (ix : List ℤ)
  | reorder (new_indexes : List (ℤ × ℤ))

/-- Run one operation (keeping the resulting state, as the Python widget
does regardless of the outcome). -/
def applyOp (logf : ℚ → ℚ) (s : MatplotlibWidget) : GraphOp → MatplotlibWidget
  | .add i label x y => (add_line2d logf i label x y s).1
  | .remove ix => (remove_multiple_line2d ix s).1
  | .reorder m => (change_lines_order m s).1

/-- Run a sequence of operations. -/
def applyOps (logf : ℚ → ℚ) : MatplotlibWidget → List GraphOp → MatplotlibWidget :=
  List.foldl (applyOp logf)

/-- Validity of an operation's arguments in a given state: an insertion
position within `[0, n]`; removal of distinct live display positions; a
reorder mapping that is defined on every live display position and permutes
the live display positions (a bijection of the live set onto itself). -/
def ValidOp (s : MatplotlibWidget) : GraphOp → Prop
  | .add i _ _ _ => 0 ≤ i ∧ i ≤ s.slots.length
  | .remove ix => ix.Nodup ∧ ∀ r ∈ ix, 0 ≤ r ∧ r < s.slots.length
  | .reorder m => ∃ f : ℤ → ℤ,
      (∀ sl ∈ s.slots, List.lookup sl.qlistIndex m = some (f sl.qlistIndex)) ∧
      Multiset.map f (posMul s) = posMul s

/-- Validity of a whole operation sequence, each operation judged in the
state it actually runs in. -/
inductive ValidSeq (logf : ℚ → ℚ) : MatplotlibWidget → List GraphOp → Prop
  | nil (s : MatplotlibWidget) : ValidSeq logf s []
  | cons {s : MatplotlibWidget} {op : GraphOp} {ops : List GraphOp} :
      ValidOp s op → ValidSeq logf (applyOp logf s op) ops → ValidSeq logf s (op :: ops)

/-- A five-curve set, graph order equal to display order, positions 0..4. -/
def fiveCurveSet : MatplotlibWidget :=
  ⟨[⟨⟨"A", [1], [some 1], none⟩, 0⟩, ⟨⟨"B", [1], [some 2], none⟩, 1⟩,
    ⟨⟨"C", [1], [some 3], none⟩, 2⟩, ⟨⟨"D", [1], [some 4], none⟩, 3⟩,
    ⟨⟨"E", [1], [some 5], none⟩, 4⟩], none, none⟩

/-- A two-curve set with no active reference. -/
def twoCurveSet : MatplotlibWidget :=
  ⟨[⟨⟨"A", [2], [some 10], none⟩, 0⟩, ⟨⟨"B", [2], [some 7], none⟩, 1⟩], none, none⟩

/-- A two-curve set in which the curve at display position 1 is the active
reference (both curves rebased and carrying their stored originals), as
produced by activating the reference on position 1. -/
def twoCurveSetRefActive : MatplotlibWidget :=
  ⟨[⟨⟨"A", [2], [some 3], some ([2], [some 10])⟩, 0⟩,
    ⟨⟨"B", [2], [some 0], some ([2], [some 7])⟩, 1⟩],
   some ⟨some 1, [2], [some 7]⟩, some "reference_curve"⟩

/-! ## Helper lemmas -/

theorem restoreSlots_cons_some {sl : Slot} {rest : List Slot} {ox : List ℚ} {oy : List Val}
    (h : sl.line.original_xy = some (ox, oy)) :
    restoreSlots (sl :: rest) =
      ({ sl with line := { sl.line with x := ox, y := oy } } :: (restoreSlots rest).1,
       (restoreSlots rest).2) := by
  simp [restoreSlots, h]

theorem restoreSlots_cons_none {sl : Slot} {rest : List Slot}
    (h : sl.line.original_xy = none) :
    restoreSlots (sl :: rest) = (sl :: rest, false) := by
  simp [restoreSlots, h]

theorem restoreSlots_map_rebase (logf : ℚ → ℚ) (ref_x : List ℚ) (ref_y : List Val)
    (slots : List Slot) :
    restoreSlots (slots.map fun sl => { sl with line := rebaseLine logf ref_x ref_y sl.line }) =
      (slots.map fun sl =>
        { sl with line := { sl.line with original_xy := some (sl.line.x, sl.line.y) } }, true) := by
  induction slots with
  | nil => rfl
  | cons sl rest ih =>
    rw [List.map_cons,
      @restoreSlots_cons_some ⟨rebaseLine logf ref_x ref_y sl.line, sl.qlistIndex⟩ _
        sl.line.x sl.line.y rfl, ih]
    rfl

theorem restoreSlots_of_isSome {slots : List Slot}
    (h : ∀ sl ∈ slots, sl.line.original_xy.isSome) :
    (restoreSlots slots).2 = true ∧
    ∀ sl ∈ (restoreSlots slots).1, ∃ ox oy,
      sl.line.original_xy = some (ox, oy) ∧ sl.line.x = ox ∧ sl.line.y = oy := by
  induction slots with
  | nil => exact ⟨rfl, by simp [restoreSlots]⟩
  | cons sl rest ih =>
    obtain ⟨xy, hxy⟩ := Option.isSome_iff_exists.mp (h sl (by simp))
    obtain ⟨ox, oy⟩ := xy
    obtain ⟨ih1, ih2⟩ := ih fun x hx => h x (by simp [hx])
    rw [restoreSlots_cons_some hxy]
    refine ⟨ih1, ?_⟩
    intro t ht
    rcases List.mem_cons.mp ht with rfl | ht2
    · exact ⟨ox, oy, by simp [hxy]⟩
    · exact ih2 t ht2

theorem restoreSlots_qlist (slots : List Slot) :
    (restoreSlots slots).1.map (·.qlistIndex) = slots.map (·.qlistIndex) := by
  induction slots with
  | nil => rfl
  | cons sl rest ih =>
    rcases h : sl.line.original_xy with - | ⟨ox, oy⟩
    · rw [restoreSlots_cons_none h]
    · rw [restoreSlots_cons_some h, List.map_cons, List.map_cons, ih]

theorem remapSlots_cons_some {m : List (ℤ × ℤ)} {sl : Slot} {rest : List Slot} {v : ℤ}
    (h : List.lookup sl.qlistIndex m = some v) :
    remapSlots m (sl :: rest) =
      ({ sl with qlistIndex := v } :: (remapSlots m rest).1, (remapSlots m rest).2) := by
  simp [remapSlots, h]

theorem remapSlots_of_total {m : List (ℤ × ℤ)} {slots : List Slot}
    (h : ∀ sl ∈ slots, (List.lookup sl.qlistIndex m).isSome) :
    remapSlots m slots =
      (slots.map fun sl =>
        { sl with qlistIndex := (List.lookup sl.qlistIndex m).getD sl.qlistIndex }, true) := by
  induction slots with
  | nil => rfl
  | cons sl rest ih =>
    obtain ⟨v, hv⟩ := Option.isSome_iff_exists.mp (h sl (by simp))
    rw [remapSlots_cons_some hv, ih fun x hx => h x (by simp [hx])]
    simp [hv]

/-! ## Claims -/

/-- C4: activating a reference while one is already active, and
deactivating when none is active, each fail with the `StateError`-class
condition (the caught `RuntimeError`, signalled as a failure), and in both
cases the whole widget state — curve samples, reference state, index
mapping, limits policy — is returned unchanged: both checks precede any
mutation. -/
theorem reference_toggle_state_errors (logf : ℚ → ℚ) (i : ℤ)
    (slots slots2 : List Slot) (r : RefIndexXY) (policy policy2 : Option String) :
    activate_reference_curve logf i ⟨slots, some r, policy⟩ =
      (⟨slots, some r, policy⟩, .stateError) ∧
    deactivate_reference_curve ⟨slots2, none, policy2⟩ =
      (⟨slots2, none, policy2⟩, .stateError) :=
  ⟨rfl, rfl⟩

/-- C8: removing display positions `{1, 3}` from the five-curve set at
positions 0..4 leaves exactly the curves originally at positions
`{0, 2, 4}` (labels A, C, E), now at display positions 0, 1, 2
respectively, order preserved. -/
theorem removal_reindexing_five_curves :
    remove_multiple_line2d [1, 3] fiveCurveSet =
      (⟨[⟨⟨"A", [1], [some 1], none⟩, 0⟩, ⟨⟨"C", [1], [some 3], none⟩, 1⟩,
         ⟨⟨"E", [1], [some 5], none⟩, 2⟩], none, none⟩, .ok) := by
  decide

/-- C5 counterexample: `change_lines_order` applied to a mapping that is
not a bijection of the live display positions (`{0 ↦ 0, 1 ↦ 0}` on a
two-curve set) raises no error at all and rewrites the ordering to the
corrupt `[0, 0]` — there is no `ValidationError` and the ordering *is*
modified. -/
theorem reorder_non_bijection_unchecked :
    (change_lines_order [(0, 0), (1, 0)] twoCurveSet).2 = .ok ∧
    (change_lines_order [(0, 0), (1, 0)] twoCurveSet).1.slots.map (·.qlistIndex) = [0, 0] ∧
    twoCurveSet.slots.map (·.qlistIndex) = [0, 1] := by
  decide

/-- C5 amended: `change_lines_order` performs no bijectivity validation:
whenever the mapping merely has *some* value for every live display
position, the operation completes without error and each stored position
is replaced by its image under the mapping — bijective or not.  (A mapping
missing a live position instead raises an uncaught `KeyError` after
remapping a prefix of the lines.) -/
theorem reorder_applies_unvalidated (m : List (ℤ × ℤ)) (slots : List Slot)
    (refxy : Option RefIndexXY) (policy : Option String)
    (h : ∀ sl ∈ slots, (List.lookup sl.qlistIndex m).isSome) :
    (change_lines_order m ⟨slots, refxy, policy⟩).2 = .ok ∧
    (change_lines_order m ⟨slots, refxy, policy⟩).1.slots =
      slots.map fun sl =>
        { sl with qlistIndex := (List.lookup sl.qlistIndex m).getD sl.qlistIndex } := by
  have hre := remapSlots_of_total h
  rcases refxy with - | ⟨ridx, rx, ry⟩
  · simp only [change_lines_order, hre]
    exact ⟨rfl, rfl⟩
  · rcases ridx with - | v
    · simp only [change_lines_order, hre]
      exact ⟨rfl, rfl⟩
    · refine ⟨?_, ?_⟩ <;>
      · simp only [change_lines_order, hre]
        split_ifs <;> rfl

/-- Witness for the C5 amended theorem at a concrete bijective mapping on
the two-curve set. -/
theorem reorder_applies_unvalidated_witness :
    (change_lines_order [(0, 1), (1, 0)] ⟨twoCurveSet.slots, none, none⟩).2 = .ok ∧
    (change_lines_order [(0, 1), (1, 0)] ⟨twoCurveSet.slots, none, none⟩).1.slots =
      twoCurveSet.slots.map fun sl =>
        { sl with qlistIndex := (List.lookup sl.qlistIndex [(0, 1), (1, 0)]).getD sl.qlistIndex } :=
  reorder_applies_unvalidated [(0, 1), (1, 0)] twoCurveSet.slots none none (by decide)

/-- C6 counterexample: `add_line2d` accepts a curve whose `x` is not
strictly increasing: no error of any kind is raised and the curve is
inserted. -/
theorem add_line2d_no_validation :
    ¬ strictlyIncreasing [2, 1] ∧
    add_line2d id 0 "bad" [2, 1] [some 1, some 2] ⟨[], none, none⟩ =
      (⟨[⟨⟨"bad", [2, 1], [some 1, some 2], none⟩, 0⟩], none, none⟩, .ok) := by
  constructor
  · simp only [strictlyIncreasing, List.chain'_cons, List.chain'_singleton, and_true]
    norm_num
  · rfl

/-- C6 amended: `add_line2d` itself performs no validation of the curve
data, and never fails with a `ValidationError`-class condition of this
code.  With no active reference: when `x` and `y` have equal lengths the
operation completes normally and inserts the curve exactly as given, even
when `x` is not strictly increasing (positions `≥ i_insert` shifted up,
the new slot appended); when the lengths differ, the external matplotlib
plotting call raises `ValueError` before any insertion — no curve is
inserted and the state is unchanged, but the failure comes from the
collaborator's dimension check, not from validation in this code. -/
theorem add_line2d_inserts_unvalidated (logf : ℚ → ℚ) (i : ℤ) (label : String)
    (x : List ℚ) (y : List Val) (slots : List Slot) (policy : Option String)
    (hx : ¬ strictlyIncreasing x) :
    (x.length = y.length →
      add_line2d logf i label x y ⟨slots, none, policy⟩ =
        (⟨(slots.map fun sl => { sl with qlistIndex := shiftIfGe i sl.qlistIndex })
            ++ [⟨⟨label, x, y, none⟩, i⟩], none, policy⟩, .ok)) ∧
    (x.length ≠ y.length →
      add_line2d logf i label x y ⟨slots, none, policy⟩ =
        (⟨slots, none, policy⟩, .valueError)) := by
  constructor
  · intro hlen
    simp only [add_line2d, if_pos hlen]
  · intro hlen
    simp only [add_line2d, if_neg hlen]

/-- Witness for the C6 amended theorem: a non-increasing `x` with matching
lengths is inserted with outcome `ok`; the same `x` with a shorter `y`
fails with the plotting collaborator's `ValueError` and inserts nothing. -/
theorem add_line2d_inserts_unvalidated_witness :
    add_line2d id 0 "w" [3, 1] [some 4, some 5] ⟨[], none, none⟩ =
      (⟨([] : List Slot).map (fun sl => { sl with qlistIndex := shiftIfGe 0 sl.qlistIndex })
          ++ [⟨⟨"w", [3, 1], [some 4, some 5], none⟩, 0⟩], none, none⟩, .ok) ∧
    add_line2d id 0 "w" [3, 1] [some 4] ⟨[], none, none⟩ =
      (⟨[], none, none⟩, .valueError) :=
  ⟨(add_line2d_inserts_unvalidated id 0 "w" [3, 1] [some 4, some 5] [] none (by
      simp only [strictlyIncreasing, List.chain'_cons, List.chain'_singleton, and_true]
      norm_num)).1 rfl,
   (add_line2d_inserts_unvalidated id 0 "w" [3, 1] [some 4] [] none (by
      simp only [strictlyIncreasing, List.chain'_cons, List.chain'_singleton, and_true]
      norm_num)).2 (by decide)⟩

/-- C10: the concrete failure sequence.  Starting from the two-curve set,
activate the reference at display position 0, add a curve "C" while the
reference is active (it is rebased but gets no `_original_xy`), then
deactivate: the restoration loop restores the two earlier-iterated curves,
hits the missing `_original_xy` on "C" and dies with `AttributeError`,
leaving "C" untouched (still rebased) and `_ref_index_x_y` still recording
an active reference.  (The scenario is independent of the log transform:
all curves share the single frequency sample 2, where interpolation
returns the reference value exactly; the identity transform is used so the
state is computable.) -/
theorem add_during_reference_breaks_deactivate :
    (activate_reference_curve id 0 twoCurveSet).2 = .ok ∧
    (add_line2d id 2 "C" [2] [some 5] (activate_reference_curve id 0 twoCurveSet).1).2 = .ok ∧
    deactivate_reference_curve
        (add_line2d id 2 "C" [2] [some 5] (activate_reference_curve id 0 twoCurveSet).1).1 =
      (⟨[⟨⟨"A", [2], [some 10], some ([2], [some 10])⟩, 0⟩,
         ⟨⟨"B", [2], [some 7], some ([2], [some 7])⟩, 1⟩,
         ⟨⟨"C", [2], [some (-5)], none⟩, 2⟩],
        some ⟨some 0, [2], [some 10]⟩, some "reference_curve"⟩, .attrError) := by
  refine ⟨rfl, rfl, ?_⟩
  have h : deactivate_reference_curve
      (add_line2d id 2 "C" [2] [some 5] (activate_reference_curve id 0 twoCurveSet).1).1 =
    (⟨[⟨⟨"A", [2], [some 10], some ([2], [some 10])⟩, 0⟩,
       ⟨⟨"B", [2], [some 7], some ([2], [some 7])⟩, 1⟩,
       ⟨⟨"C", [2], [some (5 - 10)], none⟩, 2⟩],
      some ⟨some 0, [2], [some 10]⟩, some "reference_curve"⟩, .attrError) := rfl
  rw [h]
  norm_num

/-- C9 counterexample: with a single curve of largest absolute deviation 6,
the `"reference_curve"` limits are `(-5, 5)`: the half-width `5` is
*smaller* than the largest absolute deviation `6` (the code rounds
`y_max - 2`, not `y_max`, up to a multiple of 5), refuting "sized at least
as large as the largest absolute deviation". -/
theorem reference_limits_below_max_deviation :
    reference_curve_y_limits [⟨"A", [1], [some 6], none⟩] = some (-5, 5) ∧
    npMax (([⟨"A", [1], [some 6], none⟩] : List Line2D).map fun l => npMax (l.y.map absV))
      = some 6 ∧
    ¬ ((6 : ℚ) ≤ 5) := by
  have hmax : npMax (([⟨"A", [1], [some 6], none⟩] : List Line2D).map
      fun l => npMax (l.y.map absV)) = some 6 := by
    norm_num [npMax, absV, maxV]
  refine ⟨?_, hmax, by norm_num⟩
  unfold reference_curve_y_limits
  rw [hmax]
  have hc : ⌈((4 : ℚ)) / 5⌉ = 1 := by
    rw [Int.ceil_eq_iff]
    norm_num
  norm_num [hc]

/-- C9 amended: for every curve set whose largest absolute deviation
`y_max` is defined (non-empty, no nan), the `"reference_curve"` bounds are
symmetric around zero with half-width `max (5⌈(y_max − 2)/5⌉) 1` — at
least `y_max − 2` (but possibly up to 2 below `y_max`) and at least 1, so
the span is never narrower than 1. -/
theorem reference_limits_symmetric {lines : List Line2D} {y_max : ℚ}
    (h : npMax (lines.map fun l => npMax (l.y.map absV)) = some y_max) :
    ∃ g : ℚ, reference_curve_y_limits lines = some (-g, g) ∧ y_max - 2 ≤ g ∧ 1 ≤ g := by
  refine ⟨max (5 * (⌈(y_max - 2) / 5⌉ : ℤ)) 1, ?_, ?_, le_max_right _ _⟩
  · unfold reference_curve_y_limits
    rw [h]
  · have h1 : (y_max - 2) / 5 ≤ ((⌈(y_max - 2) / 5⌉ : ℤ) : ℚ) := Int.le_ceil _
    have h2 : y_max - 2 ≤ 5 * ((⌈(y_max - 2) / 5⌉ : ℤ) : ℚ) := by linarith
    exact le_trans h2 (le_max_left _ _)

/-- Witness for the C9 amended theorem on a one-curve set with deviation 3. -/
theorem reference_limits_symmetric_witness :
    ∃ g : ℚ, reference_curve_y_limits [⟨"A", [1], [some 3], none⟩] = some (-g, g) ∧
      3 - 2 ≤ g ∧ 1 ≤ g :=
  reference_limits_symmetric (by decide)

theorem foldl_removeOne_lines {P : Line2D → Prop} :
    ∀ (l : List ℤ) (slots : List Slot), (∀ sl ∈ slots, P sl.line) →
      ∀ sl ∈ l.foldl (fun sls r => removeOne r sls) slots, P sl.line := by
  intro l
  induction l with
  | nil => intro slots h sl hsl; exact h sl hsl
  | cons r rest ih =>
    intro slots h sl hsl
    refine ih (removeOne r slots) ?_ sl hsl
    intro t ht
    obtain ⟨t0, ht0, rfl⟩ := List.mem_map.mp ht
    exact h t0 (List.mem_of_mem_filter ht0)

/-- C1: for every curve set with no active reference and every display
position that resolves to a curve, `activate_reference_curve` followed
immediately by `deactivate_reference_curve` succeeds and restores every
curve's `(x, y)` sample arrays to exactly their pre-activation values —
restoration copies the stored `_original_xy`, it does not re-add the
interpolated delta. -/
theorem reference_round_trip (logf : ℚ → ℚ) (i : ℤ) (slots : List Slot)
    (policy : Option String) (refLine : Line2D)
    (href : get_line_in_qlist_order ⟨slots, none, policy⟩ i = some refLine) :
    (activate_reference_curve logf i ⟨slots, none, policy⟩).2 = .ok ∧
    (deactivate_reference_curve (activate_reference_curve logf i ⟨slots, none, policy⟩).1).2
      = .ok ∧
    (deactivate_reference_curve
        (activate_reference_curve logf i ⟨slots, none, policy⟩).1).1.slots.map
      (fun sl => (sl.line.x, sl.line.y)) = slots.map fun sl => (sl.line.x, sl.line.y) := by
  have hact : activate_reference_curve logf i ⟨slots, none, policy⟩ =
      (⟨slots.map fun sl => { sl with line := rebaseLine logf refLine.x refLine.y sl.line },
        some ⟨some i, refLine.x, refLine.y⟩, some "reference_curve"⟩, .ok) := by
    simp only [activate_reference_curve, href]
  rw [hact]
  have hdeact := restoreSlots_map_rebase logf refLine.x refLine.y slots
  refine ⟨rfl, ?_, ?_⟩
  · simp only [deactivate_reference_curve, hdeact, if_true]
  · simp only [deactivate_reference_curve, hdeact, if_true]
    rw [List.map_map]
    rfl

/-- Witness for the C1 round trip on the two-curve set with the curve at
display position 0 as reference. -/
theorem reference_round_trip_witness :
    (activate_reference_curve id 0 ⟨twoCurveSet.slots, none, none⟩).2 = .ok ∧
    (deactivate_reference_curve
        (activate_reference_curve id 0 ⟨twoCurveSet.slots, none, none⟩).1).2 = .ok ∧
    (deactivate_reference_curve
        (activate_reference_curve id 0 ⟨twoCurveSet.slots, none, none⟩).1).1.slots.map
      (fun sl => (sl.line.x, sl.line.y)) =
      twoCurveSet.slots.map fun sl => (sl.line.x, sl.line.y) :=
  reference_round_trip id 0 twoCurveSet.slots none ⟨"A", [2], [some 10], none⟩ (by decide)

/-- C3 counterexample: removing the active reference (display position 1 of
the two-curve set with an active rebased reference) does deactivate and
restore, but the surviving curve still carries its stored `_original_xy`
(the attribute is never deleted), refuting "after the operation no
remaining curve carries a stored original_xy". -/
theorem reference_aware_removal_leaves_originals :
    (remove_multiple_line2d [1] twoCurveSetRefActive).2 = .ok ∧
    (remove_multiple_line2d [1] twoCurveSetRefActive).1.ref_index_x_y = none ∧
    (remove_multiple_line2d [1] twoCurveSetRefActive).1.slots.map
      (fun sl => sl.line.original_xy) = [some ([2], [some 10])] := by
  decide

/-- C3 amended: if the active reference's stored display position is among
the removed positions (and every curve carries a stored `_original_xy`,
as activation guarantees), the reference is deactivated first — every
curve's samples are restored from its stored original before the removal
completes, and the reference state is cleared — but every remaining curve
*retains* its stored `_original_xy`, whose value equals the curve's
restored current samples; the attribute is not removed. -/
theorem reference_aware_removal (ix : List ℤ) (slots : List Slot) (v : ℤ)
    (rx : List ℚ) (ry : List Val) (policy : Option String)
    (hv : v ∈ ix)
    (hall : ∀ sl ∈ slots, sl.line.original_xy.isSome) :
    (remove_multiple_line2d ix ⟨slots, some ⟨some v, rx, ry⟩, policy⟩).2 = .ok ∧
    (remove_multiple_line2d ix ⟨slots, some ⟨some v, rx, ry⟩, policy⟩).1.ref_index_x_y
      = none ∧
    ∀ sl ∈ (remove_multiple_line2d ix ⟨slots, some ⟨some v, rx, ry⟩, policy⟩).1.slots,
      ∃ ox oy, sl.line.original_xy = some (ox, oy) ∧ sl.line.x = ox ∧ sl.line.y = oy := by
  obtain ⟨hflag, hres⟩ := restoreSlots_of_isSome hall
  have hde : deactivate_reference_curve ⟨slots, some ⟨some v, rx, ry⟩, policy⟩ =
      (⟨(restoreSlots slots).1, none, some "SPL"⟩, .ok) := by
    simp only [deactivate_reference_curve, hflag]
    rfl
  have hrm : remove_multiple_line2d ix ⟨slots, some ⟨some v, rx, ry⟩, policy⟩ =
      (⟨(sortDesc ix).foldl (fun sls r => removeOne r sls) (restoreSlots slots).1,
        none, some "SPL"⟩, .ok) := by
    simp only [remove_multiple_line2d, hde, if_pos hv]
  rw [hrm]
  refine ⟨rfl, rfl, fun sl hsl => ?_⟩
  exact foldl_removeOne_lines
    (P := fun l => ∃ ox oy, l.original_xy = some (ox, oy) ∧ l.x = ox ∧ l.y = oy)
    (sortDesc ix) (restoreSlots slots).1 hres sl hsl

/-- Witness for the C3 amended theorem: remove position 1 (the active
reference) from the two-curve set with active reference. -/
theorem reference_aware_removal_witness :
    (remove_multiple_line2d [1] ⟨twoCurveSetRefActive.slots,
        some ⟨some 1, [2], [some 7]⟩, some "reference_curve"⟩).2 = .ok ∧
    (remove_multiple_line2d [1] ⟨twoCurveSetRefActive.slots,
        some ⟨some 1, [2], [some 7]⟩, some "reference_curve"⟩).1.ref_index_x_y = none ∧
    ∀ sl ∈ (remove_multiple_line2d [1] ⟨twoCurveSetRefActive.slots,
        some ⟨some 1, [2], [some 7]⟩, some "reference_curve"⟩).1.slots,
      ∃ ox oy, sl.line.original_xy = some (ox, oy) ∧ sl.line.x = ox ∧ sl.line.y = oy :=
  reference_aware_removal [1] twoCurveSetRefActive.slots 1 [2] [some 7]
    (some "reference_curve") (by decide) (by decide)

instance : IsTrans ℤ fun a b => b ≤ a := ⟨fun _ _ _ h h2 => le_trans h2 h⟩

instance : IsTotal ℤ fun a b => b ≤ a := ⟨fun a b => le_total b a⟩

theorem rangeZ_succ (n : ℕ) : rangeZ (n + 1) = (n : ℤ) ::ₘ rangeZ n := by
  rw [rangeZ, Multiset.range_succ, Multiset.map_cons]
  rfl

theorem card_rangeZ (n : ℕ) : Multiset.card (rangeZ n) = n := by
  simp [rangeZ]

theorem mem_rangeZ {p : ℤ} {n : ℕ} : p ∈ rangeZ n ↔ 0 ≤ p ∧ p < n := by
  simp only [rangeZ, Multiset.mem_map, Multiset.mem_range]
  constructor
  · rintro ⟨k, hk, rfl⟩
    omega
  · rintro ⟨h0, hn⟩
    exact ⟨p.toNat, by omega, by omega⟩

theorem indexBijection_of_eq_rangeZ {s : MatplotlibWidget} {n : ℕ}
    (h : posMul s = rangeZ n) : IndexBijection s := by
  have hc : s.slots.length = n := by
    have := congrArg Multiset.card h
    simpa [posMul, card_rangeZ] using this
  unfold IndexBijection
  rw [hc]
  exact h

theorem rangeZ_shift : ∀ (n : ℕ) (i : ℤ), 0 ≤ i → i ≤ n →
    i ::ₘ (rangeZ n).map (shiftIfGe i) = rangeZ (n + 1) := by
  intro n
  induction n with
  | zero =>
    intro i h0 hn
    have hi : i = 0 := by omega
    subst hi
    rfl
  | succ n ih =>
    intro i h0 hn
    rw [rangeZ_succ n, Multiset.map_cons]
    by_cases hin : i ≤ n
    · have hsh : shiftIfGe i n = (n : ℤ) + 1 := if_pos hin
      rw [hsh, Multiset.cons_swap, ih i h0 hin, rangeZ_succ (n + 1)]
      congr 1
    · have hi : i = (n : ℤ) + 1 := by omega
      subst hi
      have hsh : shiftIfGe ((n : ℤ) + 1) n = (n : ℤ) := if_neg (by omega)
      rw [hsh]
      have hmap : (rangeZ n).map (shiftIfGe ((n : ℤ) + 1)) = (rangeZ n).map id := by
        apply Multiset.map_congr rfl
        intro p hp
        rw [mem_rangeZ] at hp
        exact if_neg (by omega)
      rw [hmap, Multiset.map_id, rangeZ_succ (n + 1), rangeZ_succ n]
      congr 1

theorem rangeZ_remove : ∀ (n : ℕ) (r : ℤ), 0 ≤ r → r < n →
    ((rangeZ n).filter (fun p => p ≠ r)).map (decIfGt r) = rangeZ (n - 1) := by
  intro n
  induction n with
  | zero => intro r h0 hn; omega
  | succ n ih =>
    intro r h0 hn
    rw [rangeZ_succ n]
    by_cases hr : r = (n : ℤ)
    · subst hr
      rw [Multiset.filter_cons_of_neg _ (by simp)]
      have hfil : (rangeZ n).filter (fun p => p ≠ (n : ℤ)) = rangeZ n := by
        apply Multiset.filter_eq_self.mpr
        intro p hp
        rw [mem_rangeZ] at hp
        omega
      have hmap : (rangeZ n).map (decIfGt (n : ℤ)) = (rangeZ n).map id := by
        apply Multiset.map_congr rfl
        intro p hp
        rw [mem_rangeZ] at hp
        exact if_neg (by omega)
      rw [hfil, hmap, Multiset.map_id]
      simp
    · have hrn : r < (n : ℤ) := by omega
      have hn1 : 1 ≤ n := by omega
      rw [Multiset.filter_cons_of_pos _ (by simp; omega), Multiset.map_cons]
      have hdec : decIfGt r (n : ℤ) = (n : ℤ) - 1 := if_pos hrn
      rw [hdec, ih r h0 hrn]
      obtain ⟨m, rfl⟩ : ∃ m, n = m + 1 := ⟨n - 1, by omega⟩
      simp only [Nat.add_sub_cancel]
      rw [rangeZ_succ m]
      congr 1
      push_cast
      ring

theorem removeOne_qlist (r : ℤ) (slots : List Slot) :
    (removeOne r slots).map (·.qlistIndex) =
      ((slots.map (·.qlistIndex)).filter (fun p => p ≠ r)).map (decIfGt r) := by
  rw [List.map_filter]
  rw [removeOne, List.map_map, List.map_map]
  rfl

theorem posMul_removeOne_step (r : ℤ) (slots : List Slot) (n : ℕ)
    (hq : (↑(slots.map (·.qlistIndex)) : Multiset ℤ) = rangeZ n) (h0 : 0 ≤ r) (hn : r < n) :
    (↑((removeOne r slots).map (·.qlistIndex)) : Multiset ℤ) = rangeZ (n - 1) := by
  rw [removeOne_qlist, ← Multiset.map_coe, ← Multiset.filter_coe, hq]
  exact rangeZ_remove n r h0 hn

theorem foldl_removeOne_rangeZ :
    ∀ (l : List ℤ) (n : ℕ), l.Sorted (fun a b => b ≤ a) → l.Nodup →
      (∀ r ∈ l, 0 ≤ r ∧ r < n) →
      ∀ slots : List Slot, (↑(slots.map (·.qlistIndex)) : Multiset ℤ) = rangeZ n →
      (↑((l.foldl (fun sls r => removeOne r sls) slots).map (·.qlistIndex)) : Multiset ℤ) =
        rangeZ (n - l.length) := by
  intro l
  induction l with
  | nil =>
    intro n _ _ _ slots hq
    simpa using hq
  | cons r rest ih =>
    intro n hs hnd hb slots hq
    obtain ⟨h0, hn⟩ := hb r (by simp)
    have hstep := posMul_removeOne_step r slots n hq h0 hn
    have hrest : ∀ q ∈ rest, 0 ≤ q ∧ q < (n - 1 : ℕ) := by
      intro q hqm
      obtain ⟨hq0, hqn⟩ := hb q (by simp [hqm])
      have hqr : q ≤ r := (List.sorted_cons.mp hs).1 q hqm
      have hqne : q ≠ r := by
        intro e
        exact (List.nodup_cons.mp hnd).1 (e ▸ hqm)
      exact ⟨hq0, by omega⟩
    have hres := ih (n - 1) (List.sorted_cons.mp hs).2 (List.nodup_cons.mp hnd).2 hrest
      (removeOne r slots) hstep
    rw [List.foldl_cons]
    rw [hres]
    congr 1
    simp only [List.length_cons]
    omega

theorem remapSlots_of_fun {m : List (ℤ × ℤ)} {slots : List Slot} (f : ℤ → ℤ)
    (h : ∀ sl ∈ slots, List.lookup sl.qlistIndex m = some (f sl.qlistIndex)) :
    remapSlots m slots =
      (slots.map fun sl => { sl with qlistIndex := f sl.qlistIndex }, true) := by
  induction slots with
  | nil => rfl
  | cons sl rest ih =>
    rw [remapSlots_cons_some (h sl (by simp)), ih fun x hx => h x (by simp [hx])]
    rfl

theorem change_lines_order_slots {m : List (ℤ × ℤ)} (slots : List Slot)
    (refxy : Option RefIndexXY) (policy : Option String) (f : ℤ → ℤ)
    (h : ∀ sl ∈ slots, List.lookup sl.qlistIndex m = some (f sl.qlistIndex)) :
    (change_lines_order m ⟨slots, refxy, policy⟩).1.slots =
      slots.map fun sl => { sl with qlistIndex := f sl.qlistIndex } := by
  have hre := remapSlots_of_fun f h
  rcases refxy with - | ⟨ridx, rx, ry⟩
  · simp only [change_lines_order, hre, if_true]
  · rcases ridx with - | v
    · simp only [change_lines_order, hre, if_true]
      split_ifs <;> rfl
    · simp only [change_lines_order, hre, if_true]
      split_ifs <;> rfl

theorem add_line2d_slots_cases (logf : ℚ → ℚ) (i : ℤ) (label : String)
    (x : List ℚ) (y : List Val) (s : MatplotlibWidget) :
    (∃ yNew, (add_line2d logf i label x y s).1.slots =
        (s.slots.map fun sl => { sl with qlistIndex := shiftIfGe i sl.qlistIndex })
          ++ [⟨⟨label, x, yNew, none⟩, i⟩])
    ∨ (add_line2d logf i label x y s).1.slots = s.slots := by
  rcases hs : s.ref_index_x_y with - | r
  · by_cases hlen : x.length = y.length
    · exact Or.inl ⟨y, by simp only [add_line2d, hs, if_pos hlen]⟩
    · exact Or.inr (by simp only [add_line2d, hs, if_neg hlen])
  · rcases hidx : r.idx with - | v
    · exact Or.inr (by simp only [add_line2d, hs, hidx])
    · rcases hb : npBroadcastSub y (reference_curve_interpolated logf x r.ref_x r.ref_y)
        with - | yNew
      · exact Or.inr (by simp only [add_line2d, hs, hidx, hb])
      · by_cases hlen : x.length = yNew.length
        · exact Or.inl ⟨yNew, by simp only [add_line2d, hs, hidx, hb, if_pos hlen]⟩
        · exact Or.inr (by simp only [add_line2d, hs, hidx, hb, if_neg hlen])

theorem remove_multiple_slots_cases (ix : List ℤ) (s : MatplotlibWidget) :
    ∃ slots1 : List Slot, slots1.map (·.qlistIndex) = s.slots.map (·.qlistIndex) ∧
      ((remove_multiple_line2d ix s).1.slots
          = (sortDesc ix).foldl (fun sls r => removeOne r sls) slots1
        ∨ (remove_multiple_line2d ix s).1.slots = slots1) := by
  rcases hs : s.ref_index_x_y with - | r
  · exact ⟨s.slots, rfl, Or.inl (by simp only [remove_multiple_line2d, hs])⟩
  · rcases hidx : r.idx with - | v
    · exact ⟨s.slots, rfl, Or.inr (by simp only [remove_multiple_line2d, hs, hidx])⟩
    · by_cases hv : v ∈ ix
      · refine ⟨(restoreSlots s.slots).1, restoreSlots_qlist s.slots, ?_⟩
        cases hflag : (restoreSlots s.slots).2 with
        | false =>
          refine Or.inr ?_
          simp only [remove_multiple_line2d, hs, hidx, if_pos hv,
            deactivate_reference_curve, hflag, Bool.false_eq_true, if_false]
        | true =>
          refine Or.inl ?_
          simp only [remove_multiple_line2d, hs, hidx, if_pos hv,
            deactivate_reference_curve, hflag, if_true]
      · exact ⟨s.slots, rfl, Or.inl
          (by simp only [remove_multiple_line2d, hs, hidx, if_neg hv])⟩

theorem coe_append_singleton (l : List ℤ) (i : ℤ) :
    (↑(l ++ [i]) : Multiset ℤ) = i ::ₘ (↑l : Multiset ℤ) := by
  rw [← Multiset.coe_add, Multiset.coe_singleton, add_comm, Multiset.singleton_add]

theorem add_preserves_bijection (logf : ℚ → ℚ) {s : MatplotlibWidget} (i : ℤ)
    (label : String) (x : List ℚ) (y : List Val) (h : IndexBijection s)
    (h0 : 0 ≤ i) (hn : i ≤ s.slots.length) :
    IndexBijection (add_line2d logf i label x y s).1 := by
  rcases add_line2d_slots_cases logf i label x y s with ⟨yNew, hsl⟩ | heq
  · apply indexBijection_of_eq_rangeZ (n := s.slots.length + 1)
    unfold posMul
    rw [hsl]
    simp only [List.map_append, List.map_map, List.map_cons, List.map_nil]
    rw [coe_append_singleton]
    have hlist : s.slots.map ((·.qlistIndex) ∘
          fun sl => { sl with qlistIndex := shiftIfGe i sl.qlistIndex })
        = (s.slots.map (·.qlistIndex)).map (shiftIfGe i) := by
      rw [List.map_map]
      rfl
    have hpos : (↑(s.slots.map (·.qlistIndex)) : Multiset ℤ) = rangeZ s.slots.length := h
    rw [hlist, ← Multiset.map_coe, hpos]
    exact rangeZ_shift s.slots.length i h0 hn
  · apply indexBijection_of_eq_rangeZ (n := s.slots.length)
    unfold posMul
    rw [heq]
    exact h

theorem remove_preserves_bijection (ix : List ℤ) {s : MatplotlibWidget}
    (h : IndexBijection s) (hnd : ix.Nodup)
    (hb : ∀ r ∈ ix, 0 ≤ r ∧ r < s.slots.length) :
    IndexBijection (remove_multiple_line2d ix s).1 := by
  obtain ⟨slots1, hq, hcase⟩ := remove_multiple_slots_cases ix s
  have hq1 : (↑(slots1.map (·.qlistIndex)) : Multiset ℤ) = rangeZ s.slots.length := by
    rw [hq]
    exact h
  rcases hcase with hfold | hsame
  · apply indexBijection_of_eq_rangeZ (n := s.slots.length - (sortDesc ix).length)
    unfold posMul
    rw [hfold]
    apply foldl_removeOne_rangeZ (sortDesc ix) s.slots.length ?_ ?_ ?_ slots1 hq1
    · exact List.sorted_insertionSort _ ix
    · exact (List.perm_insertionSort _ ix).nodup_iff.mpr hnd
    · intro r hr
      exact hb r ((List.mem_insertionSort _).mp hr)
  · apply indexBijection_of_eq_rangeZ (n := s.slots.length)
    unfold posMul
    rw [hsame]
    exact hq1

theorem reorder_preserves_bijection (m : List (ℤ × ℤ)) {s : MatplotlibWidget}
    (h : IndexBijection s) (hv : ValidOp s (.reorder m)) :
    IndexBijection (change_lines_order m s).1 := by
  obtain ⟨f, hf, hperm⟩ := hv
  apply indexBijection_of_eq_rangeZ (n := s.slots.length)
  unfold posMul
  rcases s with ⟨slots, refxy, policy⟩
  rw [change_lines_order_slots slots refxy policy f hf]
  rw [List.map_map]
  have hlist : slots.map ((·.qlistIndex) ∘ fun sl =>
        { sl with qlistIndex := f sl.qlistIndex })
      = (slots.map (·.qlistIndex)).map f := by
    rw [List.map_map]
    rfl
  have hperm2 : Multiset.map f (↑(slots.map (·.qlistIndex)))
      = (↑(slots.map (·.qlistIndex)) : Multiset ℤ) := hperm
  have hpos : (↑(slots.map (·.qlistIndex)) : Multiset ℤ)
      = rangeZ (⟨slots, refxy, policy⟩ : MatplotlibWidget).slots.length := h
  rw [hlist, ← Multiset.map_coe, hperm2, hpos]

theorem applyOp_preserves_bijection (logf : ℚ → ℚ) {s : MatplotlibWidget} (op : GraphOp)
    (h : IndexBijection s) (hv : ValidOp s op) : IndexBijection (applyOp logf s op) := by
  cases op with
  | add i label x y => exact add_preserves_bijection logf i label x y h hv.1 hv.2
  | remove ix => exact remove_preserves_bijection ix h hv.1 hv.2
  | reorder m => exact reorder_preserves_bijection m h hv

theorem indexBijection_applyOps (logf : ℚ → ℚ) :
    ∀ (ops : List GraphOp) (s : MatplotlibWidget),
      IndexBijection s → ValidSeq logf s ops → IndexBijection (applyOps logf s ops) := by
  intro ops
  induction ops with
  | nil => intro s h _; exact h
  | cons op rest ih =>
    intro s h hv
    cases hv with
    | cons hop hrest => exact ih _ (applyOp_preserves_bijection logf op h hop) hrest

theorem indexBijection_nodup {s : MatplotlibWidget} (h : IndexBijection s) :
    (s.slots.map (·.qlistIndex)).Nodup := by
  have hm : (↑(s.slots.map (·.qlistIndex)) : Multiset ℤ).Nodup := by
    have hpos : (↑(s.slots.map (·.qlistIndex)) : Multiset ℤ) = rangeZ s.slots.length := h
    rw [hpos, rangeZ]
    exact (Multiset.nodup_range _).map (fun a b => by omega)
  exact Multiset.coe_nodup.mp hm

theorem indexBijection_mem {s : MatplotlibWidget} (h : IndexBijection s) (p : ℤ) :
    p ∈ s.slots.map (·.qlistIndex) ↔ 0 ≤ p ∧ p < s.slots.length := by
  have hpos : (↑(s.slots.map (·.qlistIndex)) : Multiset ℤ) = rangeZ s.slots.length := h
  have hmem : p ∈ s.slots.map (·.qlistIndex) ↔ p ∈ rangeZ s.slots.length := by
    rw [← hpos, Multiset.mem_coe]
  rw [hmem, mem_rangeZ]

/-- C2: after any sequence of valid add/remove/reorder operations starting
from a state satisfying the display-position bijection invariant, the
stored display positions are a bijection onto the live curves: the
position list has one entry per live curve, contains no duplicates, and
its members are exactly the contiguous range `[0, n)`. -/
theorem ordering_bijection_invariant (logf : ℚ → ℚ) (s : MatplotlibWidget)
    (ops : List GraphOp) (h : IndexBijection s) (hv : ValidSeq logf s ops) :
    IndexBijection (applyOps logf s ops) ∧
    ((applyOps logf s ops).slots.map (·.qlistIndex)).Nodup ∧
    ∀ p : ℤ, p ∈ (applyOps logf s ops).slots.map (·.qlistIndex) ↔
      0 ≤ p ∧ p < (applyOps logf s ops).slots.length := by
  have hmain := indexBijection_applyOps logf ops s h hv
  exact ⟨hmain, indexBijection_nodup hmain, indexBijection_mem hmain⟩

/-- Witness for C2 on a concrete four-operation sequence from the empty
widget: two insertions, a removal, and a reorder. -/
theorem ordering_bijection_invariant_witness :
    IndexBijection (applyOps id ⟨[], none, none⟩
      [.add 0 "A" [1] [some 1], .add 1 "B" [1] [some 2], .remove [0],
       .reorder [(0, 0)]]) ∧
    ((applyOps id ⟨[], none, none⟩
      [.add 0 "A" [1] [some 1], .add 1 "B" [1] [some 2], .remove [0],
       .reorder [(0, 0)]]).slots.map (·.qlistIndex)).Nodup ∧
    ∀ p : ℤ, p ∈ (applyOps id ⟨[], none, none⟩
      [.add 0 "A" [1] [some 1], .add 1 "B" [1] [some 2], .remove [0],
       .reorder [(0, 0)]]).slots.map (·.qlistIndex) ↔
      0 ≤ p ∧ p < (applyOps id ⟨[], none, none⟩
      [.add 0 "A" [1] [some 1], .add 1 "B" [1] [some 2], .remove [0],
       .reorder [(0, 0)]]).slots.length :=
  ordering_bijection_invariant id ⟨[], none, none⟩
    [.add 0 "A" [1] [some 1], .add 1 "B" [1] [some 2], .remove [0], .reorder [(0, 0)]]
    rfl
    (ValidSeq.cons ⟨by decide, by decide⟩
      (ValidSeq.cons ⟨by decide, by decide⟩
        (ValidSeq.cons ⟨by decide, by decide⟩
          (ValidSeq.cons ⟨fun _ => 0, by decide, by decide⟩
            (ValidSeq.nil _)))))

/-- The abscissa of the last knot of a non-empty knot list, written as a
total recursion on head and tail (the scan of `npInterpGo` terminates at
this knot). -/
def lastFst (p : ℚ × Val) : List (ℚ × Val) → ℚ
  | [] => p.1
  | q :: rest => lastFst q rest

theorem chain_head_le_lastFst :
    ∀ (rest : List (ℚ × Val)) (p : ℚ × Val),
      List.Chain' (fun a b => a.1 < b.1) (p :: rest) → p.1 ≤ lastFst p rest := by
  intro rest
  induction rest with
  | nil => intro p _; exact le_refl _
  | cons q rest2 ih =>
    intro p hch
    have h1 : p.1 < q.1 := (List.chain'_cons.mp hch).1
    exact le_trans (le_of_lt h1) (ih q (List.chain'_cons.mp hch).2)

theorem npInterpGo_none_iff (xq : ℚ) :
    ∀ (rest : List (ℚ × Val)) (p0 : ℚ × Val),
      List.Chain' (fun a b => a.1 < b.1) (p0 :: rest) →
      p0.2.isSome → (∀ q ∈ rest, q.2.isSome) →
      (npInterpGo xq p0 rest = none ↔ lastFst p0 rest < xq) := by
  intro rest
  induction rest with
  | nil =>
    intro p0 _ h0 _
    rcases p0 with ⟨x0, f0⟩
    simp only [npInterpGo, lastFst]
    by_cases h : x0 < xq
    · simp [h]
    · simp [h, Option.isSome_iff_ne_none.mp h0]
  | cons p1 rest2 ih =>
    intro p0 hch h0 hall
    rcases p0 with ⟨x0, f0⟩
    rcases p1 with ⟨x1, f1⟩
    have hch2 : List.Chain' (fun a b => a.1 < b.1) ((x1, f1) :: rest2) :=
      (List.chain'_cons.mp hch).2
    have h1s : ((x1, f1) : ℚ × Val).2.isSome := hall _ (by simp)
    by_cases hle : xq ≤ x1
    · have hge : x1 ≤ lastFst (x1, f1) rest2 := chain_head_le_lastFst rest2 (x1, f1) hch2
      have hres : (npInterpGo xq (x0, f0) ((x1, f1) :: rest2)).isSome := by
        simp only [npInterpGo, if_pos hle]
        split_ifs
        · exact h0
        · exact h1s
        · obtain ⟨a, ha⟩ := Option.isSome_iff_exists.mp h0
          obtain ⟨b, hb⟩ := Option.isSome_iff_exists.mp h1s
          simp only at ha hb
          simp [ha, hb]
      constructor
      · intro hnone
        rw [hnone] at hres
        simp at hres
      · intro hlt
        exact absurd hlt (by simp only [lastFst]; exact not_lt.mpr (le_trans hle hge))
    · have hgo : npInterpGo xq (x0, f0) ((x1, f1) :: rest2) =
          npInterpGo xq (x1, f1) rest2 := by
        simp only [npInterpGo, if_neg hle]
      rw [hgo]
      exact ih (x1, f1) hch2 h1s fun q hq => hall q (by simp [hq])

theorem npInterp_none_iff (xq : ℚ) (p0 : ℚ × Val) (pts : List (ℚ × Val))
    (hch : List.Chain' (fun a b => a.1 < b.1) (p0 :: pts))
    (h0 : p0.2.isSome) (hall : ∀ q ∈ pts, q.2.isSome) :
    npInterp xq (p0 :: pts) = none ↔ (xq < p0.1 ∨ lastFst p0 pts < xq) := by
  simp only [npInterp]
  by_cases hlt : xq < p0.1
  · simp [hlt]
  · rw [if_neg hlt, npInterpGo_none_iff xq pts p0 hch h0 hall]
    simp [hlt]

theorem lastFst_zip_map (logf : ℚ → ℚ) :
    ∀ (xs : List ℚ) (ys : List Val), xs.length = ys.length →
      ∀ (x0 : ℚ) (f0 : Val),
      lastFst (logf x0, f0) ((xs.map logf).zip ys) =
        logf ((x0 :: xs).getLast (List.cons_ne_nil x0 xs)) := by
  intro xs
  induction xs with
  | nil =>
    intro ys hlen x0 f0
    cases ys with
    | nil => simp [lastFst]
    | cons y ys2 => simp at hlen
  | cons x1 xs2 ih =>
    intro ys hlen x0 f0
    cases ys with
    | nil => simp at hlen
    | cons y1 ys2 =>
      show lastFst (logf x1, y1) ((xs2.map logf).zip ys2) = _
      rw [ih ys2 (by simpa using hlen) x1 y1]
      rfl

/-- C7: with a strictly monotone log transform, a strictly increasing,
non-empty reference abscissa list and defined (nan-free) reference
ordinates of the same length, the interpolation of the widget
(`_reference_curve_interpolated`, i.e. `np.interp` on log-transformed x
with `left = right = nan`) maps each target point independently (first
conjunct, so position `j` of the output corresponds to position `j` of
`target_x`), and the output at a target point is the undefined marker
`none` exactly when that point lies strictly below the reference's first
(minimal) x or strictly above its last (maximal) x; inside the domain the
output is a defined value computed by the piecewise-linear rule of
`npInterpGo` in the transformed domain. -/
theorem interpolation_undefined_iff_out_of_domain
    (logf : ℚ → ℚ) (hmono : StrictMono logf)
    (x0 : ℚ) (rtail : List ℚ) (refY : List Val)
    (hchain : strictlyIncreasing (x0 :: rtail))
    (hlen : (x0 :: rtail).length = refY.length)
    (hdef : ∀ v ∈ refY, v.isSome)
    (targetX : List ℚ) :
    reference_curve_interpolated logf targetX (x0 :: rtail) refY =
      targetX.map (fun xt => npInterp (logf xt) (((x0 :: rtail).map logf).zip refY)) ∧
    ∀ xt ∈ targetX,
      (npInterp (logf xt) (((x0 :: rtail).map logf).zip refY) = none ↔
        (xt < x0 ∨ (x0 :: rtail).getLast (List.cons_ne_nil x0 rtail) < xt)) := by
  refine ⟨rfl, ?_⟩
  intro xt _
  cases refY with
  | nil => simp at hlen
  | cons f0 ftail =>
    have hlen2 : rtail.length = ftail.length := by simpa using hlen
    have hpts : ((x0 :: rtail).map logf).zip (f0 :: ftail) =
        (logf x0, f0) :: ((rtail.map logf).zip ftail) := rfl
    rw [hpts]
    have hfst : ((logf x0, f0) :: (rtail.map logf).zip ftail).map Prod.fst
        = (x0 :: rtail).map logf := by
      simp only [List.map_cons]
      congr 1
      exact List.map_fst_zip _ _ (by rw [List.length_map]; omega)
    have hch : List.Chain' (fun a b => a.1 < b.1)
        ((logf x0, f0) :: (rtail.map logf).zip ftail) := by
      have hmchain : List.Chain' (· < ·)
          (((logf x0, f0) :: (rtail.map logf).zip ftail).map Prod.fst) := by
        rw [hfst, List.chain'_map]
        exact List.Chain'.imp (fun a b hab => hmono hab) hchain
      exact (List.chain'_map Prod.fst).mp hmchain
    rw [npInterp_none_iff (logf xt) _ _ hch (hdef f0 (by simp))
      (fun q hq => hdef q.2 (by simp [(List.of_mem_zip hq).2]))]
    rw [lastFst_zip_map logf rtail ftail hlen2 x0 f0]
    constructor
    · rintro (h | h)
      · exact Or.inl (hmono.lt_iff_lt.mp h)
      · exact Or.inr (hmono.lt_iff_lt.mp h)
    · rintro (h | h)
      · exact Or.inl (hmono h)
      · exact Or.inr (hmono h)

/-- Witness for C7 with the identity transform: reference knots `[1, 10]`
with values `[10, 20]`, targets below (0), inside (5) and above (11) the
domain. -/
theorem interpolation_undefined_iff_out_of_domain_witness :
    reference_curve_interpolated id [0, 5, 11] [1, 10] [some 10, some 20] =
      ([0, 5, 11] : List ℚ).map (fun xt =>
        npInterp (id xt) ((([1, 10] : List ℚ).map id).zip [some 10, some 20])) ∧
    ∀ xt ∈ ([0, 5, 11] : List ℚ),
      (npInterp (id xt) ((([1, 10] : List ℚ).map id).zip [some 10, some 20]) = none ↔
        (xt < 1 ∨ ([1, 10] : List ℚ).getLast (List.cons_ne_nil 1 [10]) < xt)) :=
  interpolation_undefined_iff_out_of_domain id strictMono_id 1 [10] [some 10, some 20]
    (by simp only [strictlyIncreasing, List.chain'_cons, List.chain'_singleton, and_true]
        norm_num)
    rfl (by decide) [0, 5, 11]
